import Mathlib

/-!
# go-redirect: verification of the redirect resolution and mapping-management engine

Shallow embedding of the core of the `go-redirect` repository:

* `src/redirector/models/Redirect.js` — the persisted mapping record
  (fields `slug`, `url`, `userId`, `createdAt`) with the compound unique
  index on `(slug, userId)`.
* `src/redirector/server.js` (`app.get('/:slug')`) — the resolution route.
* `src/redirector/middleware/auth.js` (`getCurrentUser`) — identity lookup.
* `routes/redirects.js` (the create / update / delete route handlers) and
  the CLI `addRedirect` / `editRedirect` — the mapping lifecycle operations.

Strings are modelled over `String.data : List Char`; JavaScript's
`trim` / `toLowerCase` / `startsWith` are embedded character-wise (for the
ASCII fragment that the engine's slugs and URLs use).  The MongoDB store is
a `List Redirect`; the compound unique index duplicate-key error (Mongo
code 11000) is the `conflict` outcome of `createRedirect`/`updateRedirect`,
and mongoose `required`-field validation (which rejects the empty string
after the schema's `trim`/`lowercase` setters) is the `validation` outcome.
-/

/-- JS `String.prototype.trim` whitespace test, restricted to the ASCII
whitespace characters mongoose's `trim` setter actually meets here. -/
def charIsWS (c : Char) : Bool :=
  c == ' ' || c == '\t' || c == '\n' || c == '\r'

/-- JS `s.trim()` : drop leading and trailing whitespace. -/
def jsTrim (s : String) : String :=
  ⟨((s.data.dropWhile charIsWS).reverse.dropWhile charIsWS).reverse⟩

/-- JS `s.toLowerCase()` on the ASCII fragment: lowercase every character. -/
def jsToLowerCase (s : String) : String :=
  ⟨s.data.map Char.toLower⟩

/-- JS `s.startsWith(p)` : `p` is a literal leading substring of `s`. -/
def jsStartsWith (s p : String) : Bool :=
  p.data.isPrefixOf s.data

/-- The slug normalization performed by every write path
(`slug.trim().toLowerCase()` in the route handlers and the CLI, re-applied
idempotently by the schema's `lowercase`/`trim` setters). -/
def normSlug (s : String) : String :=
  jsToLowerCase (jsTrim s)

/-- The persisted redirect record (`models/Redirect.js`): Mongo `_id` and
`createdAt` are abstracted to `Nat`. -/
structure Redirect where
  id : Nat
  slug : String
  url : String
  userId : Nat
  createdAt : Nat
deriving DecidableEq, Repr

/-- A user document as far as the engine reads it (`isActive` flag). -/
structure User where
  id : Nat
  isActive : Bool
deriving DecidableEq, Repr

/-- Outcomes of a store write, following §7 of the design: mongoose
`required` validation failure, duplicate-key (Mongo error code 11000)
against the `(slug, userId)` unique index, or a missing/foreign record. -/
inductive StoreError where
  | validation
  | conflict
  | notFound
deriving DecidableEq, Repr

/-- `router.post('/redirects')` / CLI `addRedirect`: build the document with
`slug.trim().toLowerCase()`, `url.trim()`, the caller's id; `save()` first
runs `required` validation (empty string fails), then the insert hits the
compound unique index on `(slug, userId)`. -/
def createRedirect (store : List Redirect) (uid freshId now : Nat)
    (slug url : String) : Except StoreError (List Redirect) :=
  if normSlug slug = "" ∨ jsTrim url = "" then .error .validation
  else if store.any (fun r => r.slug == normSlug slug && r.userId == uid) then .error .conflict
  else .ok (⟨freshId, normSlug slug, jsTrim url, uid, now⟩ :: store)

/-- `router.post('/redirects/:id')`: `findOne({_id, userId})` (ownership is
part of the query), then mutate `slug`/`url` and `save()`; validation runs
before the write, and the unique index rejects a different document with
the same `(slug, userId)` pair. -/
def updateRedirect (store : List Redirect) (uid rid : Nat)
    (newSlug newUrl : String) : Except StoreError (List Redirect) :=
  match store.find? (fun r => r.id == rid && r.userId == uid) with
  | none => .error .notFound
  | some r =>
    if normSlug newSlug = "" ∨ jsTrim newUrl = "" then .error .validation
    else if store.any
        (fun o => o.id != r.id && o.userId == r.userId && o.slug == normSlug newSlug) then
      .error .conflict
    else .ok (store.map (fun o =>
      if o.id == r.id then { r with slug := normSlug newSlug, url := jsTrim newUrl } else o))

/-- State-passing view of create: a failed `save()` leaves the collection
untouched. -/
def runCreate (store : List Redirect) (uid freshId now : Nat)
    (slug url : String) : List Redirect × Option StoreError :=
  match createRedirect store uid freshId now slug url with
  | .ok store' => (store', none)
  | .error e => (store, some e)

/-- State-passing view of update: a failed `save()` leaves the collection
untouched. -/
def runUpdate (store : List Redirect) (uid rid : Nat)
    (newSlug newUrl : String) : List Redirect × Option StoreError :=
  match updateRedirect store uid rid newSlug newUrl with
  | .ok store' => (store', none)
  | .error e => (store, some e)

/-- The web create route's error translation (`error.code === 11000` maps to
the dedicated message, anything else to the generic one). -/
def createErrorMessage : StoreError → String
  | .conflict => "Slug already exists for your account"
  | _ => "Error creating redirect"

/-- `middleware/auth.js getCurrentUser`: with a session user id, load the
user; expose it on the request only when it exists and is active. -/
def getCurrentUser (users : List User) (sessionUserId : Option Nat) : Option User :=
  match sessionUserId with
  | none => none
  | some uid =>
    match users.find? (fun u => u.id == uid) with
    | some u => if u.isActive then some u else none
    | none => none

/-- The observable response of the `/:slug` route: redirect to `/login`
(both the reserved `login` slug and every denied request), a 404 miss, or
a redirect instruction carrying target URL, HTTP status and cache max-age. -/
inductive Response where
  | loginRedirect
  | notFound404
  | redirect (url : String) (status : Nat) (cacheMaxAge : Nat)
deriving DecidableEq, Repr

/-- `server.js app.get('/:slug')` destination normalization: prepend
`https://` unless the stored URL starts with the literal `http://` or
`https://`. -/
def normalizeUrl (url : String) : String :=
  if !(jsStartsWith url "http://") && !(jsStartsWith url "https://") then
    "https://" ++ url
  else url

/-- `server.js app.get('/:slug')`: the reserved `login` slug short-circuits;
then the gate (`session.userId`, `req.user`, `req.user.isActive`); then
`Redirect.findOne({slug: slug.toLowerCase(), userId})`; a hit answers a
301 redirect to the normalized URL with `Cache-Control: max-age=300`. -/
def resolveSlug (store : List Redirect) (users : List User)
    (session : Option Nat) (rawSlug : String) : Response :=
  if rawSlug = "login" then .loginRedirect
  else
    match session with
    | none => .loginRedirect
    | some uid =>
      match getCurrentUser users (some uid) with
      | none => .loginRedirect
      | some user =>
        if user.isActive then
          match store.find? (fun r => r.slug == jsToLowerCase rawSlug && r.userId == uid) with
          | none => .notFound404
          | some r => .redirect (normalizeUrl r.url) 301 300
        else .loginRedirect

/-! ## Store invariants (§3 of the design)

The schema stores slugs lowercased, so `jsToLowerCase` fixes every stored
slug; the per-owner uniqueness invariant compares slugs case-insensitively. -/

/-- Every stored slug is a fixed point of lowercasing (the schema's
`lowercase: true` setter). -/
def slugsNormal (store : List Redirect) : Prop :=
  ∀ r ∈ store, jsToLowerCase r.slug = r.slug

/-- Mongo `_id`s are pairwise distinct. -/
def idsDistinct (store : List Redirect) : Prop :=
  store.Pairwise (fun a b => a.id ≠ b.id)

/-- The central invariant: for a fixed owner, at most one record per
case-insensitively compared slug. -/
def perOwnerUnique (store : List Redirect) : Prop :=
  store.Pairwise (fun a b =>
    a.userId = b.userId → jsToLowerCase a.slug ≠ jsToLowerCase b.slug)

/-! ## Character and string normalization facts -/

theorem char_toNat_ofNat (n : Nat) (h : n.isValidChar) : (Char.ofNat n).toNat = n := by
  unfold Char.ofNat
  rw [dif_pos h]
  rfl

theorem char_toLower_of_upper (c : Char) (h : c.toNat ≥ 65 ∧ c.toNat ≤ 90) :
    c.toLower = Char.ofNat (c.toNat + 32) := by
  show (if c.toNat ≥ 65 ∧ c.toNat ≤ 90 then Char.ofNat (c.toNat + 32) else c)
      = Char.ofNat (c.toNat + 32)
  exact if_pos h

theorem char_toLower_of_not_upper (c : Char) (h : ¬(c.toNat ≥ 65 ∧ c.toNat ≤ 90)) :
    c.toLower = c := by
  show (if c.toNat ≥ 65 ∧ c.toNat ≤ 90 then Char.ofNat (c.toNat + 32) else c) = c
  exact if_neg h

theorem char_toLower_toLower (c : Char) : c.toLower.toLower = c.toLower := by
  by_cases h : c.toNat ≥ 65 ∧ c.toNat ≤ 90
  · rw [char_toLower_of_upper c h]
    apply char_toLower_of_not_upper
    rw [char_toNat_ofNat (c.toNat + 32) (Or.inl (by omega))]
    omega
  · rw [char_toLower_of_not_upper c h, char_toLower_of_not_upper c h]

theorem jsToLowerCase_idem (s : String) :
    jsToLowerCase (jsToLowerCase s) = jsToLowerCase s := by
  show String.mk (((String.mk (s.data.map Char.toLower)).data).map Char.toLower)
      = String.mk (s.data.map Char.toLower)
  congr 1
  rw [List.map_map]
  exact List.map_congr_left (fun a _ => char_toLower_toLower a)

theorem jsToLowerCase_normSlug (s : String) :
    jsToLowerCase (normSlug s) = normSlug s := by
  unfold normSlug
  exact jsToLowerCase_idem (jsTrim s)

theorem normSlug_of_trim_empty (s : String) (h : jsTrim s = "") : normSlug s = "" := by
  unfold normSlug
  rw [h]
  rfl

example : normSlug " NetFlix " = "netflix" := by decide
example : jsStartsWith "http://x" "http://" = true := by decide
example : normalizeUrl "example.com" = "https://example.com" := by decide
example : normalizeUrl "HTTP://x" = "https://HTTP://x" := by decide
example : createRedirect [] 1 10 0 "Go " "a.com" = .ok [⟨10, "go", "a.com", 1, 0⟩] := rfl
example : resolveSlug [⟨1, "netflix", "example.com", 1, 0⟩] [⟨1, true⟩] (some 1) "NETFLIX"
    = .redirect "https://example.com" 301 300 := by decide
example : resolveSlug [⟨1, "netflix", "example.com", 1, 0⟩] [⟨1, true⟩] (some 1) "netflix "
    = .notFound404 := by decide

/-! ## Inversion lemmas for the write operations -/

theorem createRedirect_ok {store : List Redirect} {uid f n : Nat} {slug url : String}
    {store' : List Redirect}
    (h : createRedirect store uid f n slug url = .ok store') :
    normSlug slug ≠ "" ∧ jsTrim url ≠ "" ∧
    (∀ r ∈ store, ¬(r.slug = normSlug slug ∧ r.userId = uid)) ∧
    store' = ⟨f, normSlug slug, jsTrim url, uid, n⟩ :: store := by
  unfold createRedirect at h
  split at h
  · cases h
  · split at h
    · cases h
    · rename_i hv hc
      push_neg at hv
      refine ⟨hv.1, hv.2, ?_, (Except.ok.inj h).symm⟩
      intro r hr hcontra
      exact hc (List.any_eq_true.mpr ⟨r, hr, by simp [hcontra.1, hcontra.2]⟩)

theorem updateRedirect_ok {store : List Redirect} {uid rid : Nat} {ns nu : String}
    {store' : List Redirect}
    (h : updateRedirect store uid rid ns nu = .ok store') :
    ∃ r, store.find? (fun x => x.id == rid && x.userId == uid) = some r ∧
      normSlug ns ≠ "" ∧ jsTrim nu ≠ "" ∧
      (∀ o ∈ store, ¬(o.id ≠ r.id ∧ o.userId = r.userId ∧ o.slug = normSlug ns)) ∧
      store' = store.map
        (fun o => if o.id == r.id then { r with slug := normSlug ns, url := jsTrim nu } else o) := by
  unfold updateRedirect at h
  split at h
  · cases h
  · rename_i r hf
    split at h
    · cases h
    · split at h
      · cases h
      · rename_i hv hc
        push_neg at hv
        refine ⟨r, hf, hv.1, hv.2, ?_, (Except.ok.inj h).symm⟩
        intro o ho hcontra
        exact hc (List.any_eq_true.mpr
          ⟨o, ho, by simp [hcontra.1, hcontra.2.1, hcontra.2.2]⟩)

/-- C1: Per-owner slug uniqueness partition: for every fixed `ownerId` at
most one mapping exists per case-insensitively compared slug; the invariant
(together with slug normal forms) is preserved by every create and by every
update; and two distinct owners can each create the same slug — both
creations succeed. -/
theorem perOwner_uniqueness_partition :
    (∀ store uid f n slug url store',
        slugsNormal store → perOwnerUnique store →
        createRedirect store uid f n slug url = .ok store' →
        slugsNormal store' ∧ perOwnerUnique store') ∧
    (∀ store uid rid ns nu store',
        slugsNormal store → idsDistinct store → perOwnerUnique store →
        updateRedirect store uid rid ns nu = .ok store' →
        slugsNormal store' ∧ perOwnerUnique store') ∧
    (∀ store o₁ o₂ f₁ f₂ n₁ n₂ slug u₁ u₂,
        o₁ ≠ o₂ →
        normSlug slug ≠ "" → jsTrim u₁ ≠ "" → jsTrim u₂ ≠ "" →
        (∀ r ∈ store, r.userId = o₁ → r.slug ≠ normSlug slug) →
        (∀ r ∈ store, r.userId = o₂ → r.slug ≠ normSlug slug) →
        ∃ st₁ st₂, createRedirect store o₁ f₁ n₁ slug u₁ = .ok st₁ ∧
                   createRedirect st₁ o₂ f₂ n₂ slug u₂ = .ok st₂) := by
  refine ⟨?_, ?_, ?_⟩
  · -- create preserves the invariant
    intro store uid f n slug url store' hN hU h
    obtain ⟨-, -, hnone, rfl⟩ := createRedirect_ok h
    constructor
    · intro r hr
      rcases List.mem_cons.mp hr with rfl | hr
      · exact jsToLowerCase_normSlug slug
      · exact hN r hr
    · unfold perOwnerUnique
      rw [List.pairwise_cons]
      refine ⟨?_, hU⟩
      intro b hb hown
      show jsToLowerCase (normSlug slug) ≠ jsToLowerCase b.slug
      rw [jsToLowerCase_normSlug slug, hN b hb]
      intro hslugeq
      exact hnone b hb ⟨hslugeq.symm, hown.symm⟩
  · -- update preserves the invariant
    intro store uid rid ns nu store' hN hI hU h
    obtain ⟨r, hf, -, -, hnone, rfl⟩ := updateRedirect_ok h
    have hfa : ∀ o : Redirect, o.id = r.id →
        (if o.id == r.id then { r with slug := normSlug ns, url := jsTrim nu } else o)
          = { r with slug := normSlug ns, url := jsTrim nu } := by
      intro o hid
      rw [if_pos (by simp [hid])]
    have hfb : ∀ o : Redirect, o.id ≠ r.id →
        (if o.id == r.id then { r with slug := normSlug ns, url := jsTrim nu } else o) = o := by
      intro o hid
      rw [if_neg (by simp [hid])]
    constructor
    · intro x hx
      rcases List.mem_map.mp hx with ⟨o, ho, rfl⟩
      by_cases hid : o.id = r.id
      · rw [hfa o hid]
        exact jsToLowerCase_normSlug ns
      · rw [hfb o hid]
        exact hN o ho
    · unfold perOwnerUnique
      rw [List.pairwise_map]
      refine List.Pairwise.imp_of_mem ?_ (hI.and hU)
      intro a b ha hb hab
      obtain ⟨haid, hau⟩ := hab
      by_cases ha' : a.id = r.id
      · have hb' : b.id ≠ r.id := by rw [← ha']; exact fun hh => haid hh.symm
        rw [hfa a ha', hfb b hb']
        intro hown hslugeq
        have hown' : r.userId = b.userId := hown
        have hsl : jsToLowerCase (normSlug ns) = jsToLowerCase b.slug := hslugeq
        rw [jsToLowerCase_normSlug ns, hN b hb] at hsl
        exact hnone b hb ⟨hb', hown'.symm, hsl.symm⟩
      · by_cases hb' : b.id = r.id
        · rw [hfb a ha', hfa b hb']
          intro hown hslugeq
          have hown' : a.userId = r.userId := hown
          have hsl : jsToLowerCase a.slug = jsToLowerCase (normSlug ns) := hslugeq
          rw [jsToLowerCase_normSlug ns, hN a ha] at hsl
          exact hnone a ha ⟨ha', hown', hsl⟩
        · rw [hfb a ha', hfb b hb']
          exact hau
  · -- namespace partition across owners
    intro store o₁ o₂ f₁ f₂ n₁ n₂ slug u₁ u₂ ho hs hu₁ hu₂ h₁ h₂
    have hc₁ : ¬(store.any (fun r => r.slug == normSlug slug && r.userId == o₁) = true) := by
      intro hc
      obtain ⟨r, hr, hp⟩ := List.any_eq_true.mp hc
      rw [Bool.and_eq_true, beq_iff_eq, beq_iff_eq] at hp
      exact h₁ r hr hp.2 hp.1
    have e₁ : createRedirect store o₁ f₁ n₁ slug u₁ =
        .ok (⟨f₁, normSlug slug, jsTrim u₁, o₁, n₁⟩ :: store) := by
      unfold createRedirect
      rw [if_neg (by push_neg; exact ⟨hs, hu₁⟩), if_neg hc₁]
    have hc₂ : ¬((⟨f₁, normSlug slug, jsTrim u₁, o₁, n₁⟩ :: store).any
        (fun r => r.slug == normSlug slug && r.userId == o₂) = true) := by
      intro hc
      obtain ⟨r, hr, hp⟩ := List.any_eq_true.mp hc
      rw [Bool.and_eq_true, beq_iff_eq, beq_iff_eq] at hp
      rcases List.mem_cons.mp hr with rfl | hr
      · exact ho hp.2
      · exact h₂ r hr hp.2 hp.1
    have e₂ : createRedirect (⟨f₁, normSlug slug, jsTrim u₁, o₁, n₁⟩ :: store) o₂ f₂ n₂ slug u₂ =
        .ok (⟨f₂, normSlug slug, jsTrim u₂, o₂, n₂⟩ :: ⟨f₁, normSlug slug, jsTrim u₁, o₁, n₁⟩ :: store) := by
      unfold createRedirect
      rw [if_neg (by push_neg; exact ⟨hs, hu₂⟩), if_neg hc₂]
    exact ⟨_, _, e₁, e₂⟩

theorem perOwner_uniqueness_partition_witness :
    ∃ st₁ st₂, createRedirect [] 1 10 0 "Go" "a.com" = .ok st₁ ∧
               createRedirect st₁ 2 11 0 "Go" "b.com" = .ok st₂ :=
  perOwner_uniqueness_partition.2.2 [] 1 2 10 11 0 0 "Go" "a.com" "b.com"
    (by decide) (by decide) (by decide) (by decide) (by decide) (by decide)

/-! ## Resolution helpers -/

theorem getCurrentUser_isActive {users : List User} {uid : Nat} {u : User}
    (h : getCurrentUser users (some uid) = some u) : u.isActive = true := by
  simp only [getCurrentUser] at h
  split at h
  · rename_i u' hfind
    split at h
    · rename_i hact
      cases h
      exact hact
    · cases h
  · cases h

theorem resolveSlug_hit {store : List Redirect} {users : List User} {uid : Nat} {u : User}
    {rawSlug : String} {r : Redirect}
    (hslug : rawSlug ≠ "login")
    (hu : getCurrentUser users (some uid) = some u)
    (hf : store.find? (fun x => x.slug == jsToLowerCase rawSlug && x.userId == uid) = some r) :
    resolveSlug store users (some uid) rawSlug = .redirect (normalizeUrl r.url) 301 300 := by
  have hact := getCurrentUser_isActive hu
  simp [resolveSlug, hslug, hu, hact, hf]

theorem resolveSlug_miss {store : List Redirect} {users : List User} {uid : Nat} {u : User}
    {rawSlug : String}
    (hslug : rawSlug ≠ "login")
    (hu : getCurrentUser users (some uid) = some u)
    (hf : store.find? (fun x => x.slug == jsToLowerCase rawSlug && x.userId == uid) = none) :
    resolveSlug store users (some uid) rawSlug = .notFound404 := by
  have hact := getCurrentUser_isActive hu
  simp [resolveSlug, hslug, hu, hact, hf]

theorem find?_filter_of_imp {α : Type} (p q : α → Bool) (l : List α)
    (hpq : ∀ a, p a = true → q a = true) :
    (l.filter q).find? p = l.find? p := by
  induction l with
  | nil => rfl
  | cons a t ih =>
    by_cases hq : q a = true
    · rw [List.filter_cons_of_pos hq]
      by_cases hp : p a = true
      · rw [List.find?_cons_of_pos _ hp, List.find?_cons_of_pos _ hp]
      · rw [List.find?_cons_of_neg _ hp, List.find?_cons_of_neg _ hp, ih]
    · have hp : ¬ p a = true := fun hpa => hq (hpq a hpa)
      rw [List.filter_cons_of_neg (by simpa using hq), List.find?_cons_of_neg _ hp, ih]

/-- C2: Ownership non-leakage: an authorized caller who owns no mapping for
the requested slug gets `NotFound`, whatever other owners have stored; and
the resolution result depends only on the caller's own records, so a
foreign owner's mapping is indistinguishable from no mapping at all. -/
theorem ownership_non_leakage :
    (∀ store users uid u rawSlug,
        rawSlug ≠ "login" →
        getCurrentUser users (some uid) = some u →
        (∀ r ∈ store, r.userId = uid → r.slug ≠ jsToLowerCase rawSlug) →
        resolveSlug store users (some uid) rawSlug = .notFound404) ∧
    (∀ store users uid rawSlug,
        resolveSlug store users (some uid) rawSlug =
          resolveSlug (store.filter (fun r => r.userId == uid)) users (some uid) rawSlug) := by
  constructor
  · intro store users uid u rawSlug hslug hu hnone
    have hf : store.find? (fun x => x.slug == jsToLowerCase rawSlug && x.userId == uid)
        = none := by
      rw [List.find?_eq_none]
      intro x hx hpx
      rw [Bool.and_eq_true, beq_iff_eq, beq_iff_eq] at hpx
      exact hnone x hx hpx.2 hpx.1
    exact resolveSlug_miss hslug hu hf
  · intro store users uid rawSlug
    have hfilter := find?_filter_of_imp
      (fun x => x.slug == jsToLowerCase rawSlug && x.userId == uid)
      (fun r => r.userId == uid) store
      (by intro a ha; rw [Bool.and_eq_true] at ha; exact ha.2)
    by_cases hslug : rawSlug = "login"
    · simp [resolveSlug, hslug]
    · cases hu : getCurrentUser users (some uid) with
      | none => simp [resolveSlug, hslug, hu]
      | some u =>
        by_cases hact : u.isActive
        · simp [resolveSlug, hslug, hu, hact, hfilter]
        · simp [resolveSlug, hslug, hu, hact]

theorem ownership_non_leakage_witness :
    resolveSlug [⟨1, "netflix", "example.com", 2, 0⟩] [⟨1, true⟩] (some 1) "netflix"
      = .notFound404 :=
  ownership_non_leakage.1 [⟨1, "netflix", "example.com", 2, 0⟩] [⟨1, true⟩] 1 ⟨1, true⟩
    "netflix" (by decide) rfl (by decide)

/-- C3 counterexample: after a successful create, a second create with the
same slug but an empty destination fails mongoose `required` validation —
which runs before the insert reaches the unique index — so the failure is
`validation`, not `conflict`, and the generic message is shown. -/
theorem duplicate_create_empty_destination_cex :
    createRedirect [] 1 10 0 "go" "a.com" = .ok [⟨10, "go", "a.com", 1, 0⟩] ∧
    createRedirect [⟨10, "go", "a.com", 1, 0⟩] 1 11 0 "go" "" = .error .validation ∧
    StoreError.validation ≠ StoreError.conflict ∧
    createErrorMessage .validation = "Error creating redirect" :=
  ⟨rfl, rfl, by decide, rfl⟩

/-- C3 (amended): after a first successful `create(o, s, d₁)`, a second
`create(o, s, d₂)` fails with `ConflictError` for every destination `d₂`
that is nonempty after trimming, and the conflict is surfaced as the
dedicated "slug already exists" message, distinct from the generic one. -/
theorem duplicate_create_conflict :
    ∀ store uid f₁ n₁ d₁ store' f₂ n₂ d₂ slug,
      createRedirect store uid f₁ n₁ slug d₁ = .ok store' →
      jsTrim d₂ ≠ "" →
      createRedirect store' uid f₂ n₂ slug d₂ = .error .conflict ∧
      createErrorMessage .conflict = "Slug already exists for your account" ∧
      createErrorMessage .conflict ≠ createErrorMessage .validation := by
  intro store uid f₁ n₁ d₁ store' f₂ n₂ d₂ slug h hd₂
  obtain ⟨hs, -, -, rfl⟩ := createRedirect_ok h
  refine ⟨?_, rfl, by decide⟩
  unfold createRedirect
  rw [if_neg (by push_neg; exact ⟨hs, hd₂⟩), if_pos]
  rw [List.any_cons]
  simp

theorem duplicate_create_conflict_witness :
    createRedirect [⟨10, "go", "a.com", 1, 0⟩] 1 11 1 "GO " "b.com" = .error .conflict ∧
    createErrorMessage .conflict = "Slug already exists for your account" ∧
    createErrorMessage .conflict ≠ createErrorMessage .validation :=
  duplicate_create_conflict [] 1 10 0 "a.com" [⟨10, "go", "a.com", 1, 0⟩] 11 1 "b.com" "GO "
    rfl (by decide)

/-- C4: Destination normalization at resolution: on a hit, a stored
destination without an `http://` or `https://` prefix is returned with
`https://` prepended; one that already carries either prefix is returned
unchanged. -/
theorem destination_normalization :
    ∀ store users uid u rawSlug r,
      rawSlug ≠ "login" →
      getCurrentUser users (some uid) = some u →
      store.find? (fun x => x.slug == jsToLowerCase rawSlug && x.userId == uid) = some r →
      (jsStartsWith r.url "http://" = false → jsStartsWith r.url "https://" = false →
        resolveSlug store users (some uid) rawSlug
          = .redirect ("https://" ++ r.url) 301 300) ∧
      ((jsStartsWith r.url "http://" = true ∨ jsStartsWith r.url "https://" = true) →
        resolveSlug store users (some uid) rawSlug = .redirect r.url 301 300) := by
  intro store users uid u rawSlug r hslug hu hf
  have hhit := resolveSlug_hit hslug hu hf
  constructor
  · intro h1 h2
    rw [hhit]
    unfold normalizeUrl
    rw [if_pos (by rw [h1, h2]; rfl)]
  · intro h12
    rw [hhit]
    unfold normalizeUrl
    rw [if_neg]
    rcases h12 with h1 | h1 <;> rw [h1] <;> simp

theorem destination_normalization_witness :
    resolveSlug [⟨1, "docs", "example.com", 1, 0⟩] [⟨1, true⟩] (some 1) "docs"
      = .redirect ("https://" ++ "example.com") 301 300 :=
  (destination_normalization [⟨1, "docs", "example.com", 1, 0⟩] [⟨1, true⟩] 1 ⟨1, true⟩
    "docs" ⟨1, "docs", "example.com", 1, 0⟩ (by decide) rfl rfl).1 (by decide) (by decide)

/-- C5 counterexample: resolution lowercases the raw slug but does NOT trim
it: with `netflix` stored, the untrimmed variants `"netflix "` and
`" netflix"` miss (404) while the exact and case-variant slugs hit, so the
claimed trim normalization does not happen. -/
theorem slug_trim_at_resolution_cex :
    resolveSlug [⟨1, "netflix", "example.com", 1, 0⟩] [⟨1, true⟩] (some 1) "netflix "
      = .notFound404 ∧
    resolveSlug [⟨1, "netflix", "example.com", 1, 0⟩] [⟨1, true⟩] (some 1) " netflix"
      = .notFound404 ∧
    resolveSlug [⟨1, "netflix", "example.com", 1, 0⟩] [⟨1, true⟩] (some 1) "NETFLIX"
      = .redirect "https://example.com" 301 300 := by
  refine ⟨rfl, rfl, rfl⟩

/-- C5 (amended): resolve normalizes the raw slug by lowercasing only (no
trim) before lookup; hence any case variant of a created slug — any raw
slug whose lowercase form equals the stored trimmed-lowercased slug — hits
the same record. -/
theorem slug_lowercase_resolution :
    ∀ store uid f n slug url store' users u raw,
      createRedirect store uid f n slug url = .ok store' →
      raw ≠ "login" →
      getCurrentUser users (some uid) = some u →
      jsToLowerCase raw = normSlug slug →
      resolveSlug store' users (some uid) raw
        = .redirect (normalizeUrl (jsTrim url)) 301 300 := by
  intro store uid f n slug url store' users u raw hc hraw hu hcase
  obtain ⟨-, -, -, rfl⟩ := createRedirect_ok hc
  have hf : ((⟨f, normSlug slug, jsTrim url, uid, n⟩ : Redirect) :: store).find?
      (fun x => x.slug == jsToLowerCase raw && x.userId == uid)
      = some ⟨f, normSlug slug, jsTrim url, uid, n⟩ :=
    List.find?_cons_of_pos _ (by simp [hcase])
  exact resolveSlug_hit hraw hu hf

theorem slug_lowercase_resolution_witness :
    resolveSlug [⟨10, "netflix", "netflix.com", 1, 0⟩] [⟨1, true⟩] (some 1) "NETFLIX"
      = .redirect (normalizeUrl (jsTrim "netflix.com")) 301 300 :=
  slug_lowercase_resolution [] 1 10 0 " Netflix" "netflix.com"
    [⟨10, "netflix", "netflix.com", 1, 0⟩] [⟨1, true⟩] ⟨1, true⟩ "NETFLIX"
    rfl (by decide) rfl (by decide)

/-- C6: Authorization gate: for every non-reserved slug, the response is the
authentication redirect exactly when the session is absent, the session's
user does not exist, or the user is inactive — an inactive identity is
treated identically to no identity.  The denied outcome is the dedicated
`loginRedirect` response, a constructor distinct from `notFound404` and
from any error page. -/
theorem denied_iff_absent_or_inactive :
    ∀ store users session rawSlug,
      rawSlug ≠ "login" →
      (resolveSlug store users session rawSlug = .loginRedirect ↔
        (session = none ∨ ∃ uid, session = some uid ∧
          (users.find? (fun x => x.id == uid) = none ∨
           ∃ u, users.find? (fun x => x.id == uid) = some u ∧ u.isActive = false))) := by
  intro store users session rawSlug hslug
  cases session with
  | none =>
    simp [resolveSlug, hslug]
  | some uid =>
    cases hfu : users.find? (fun x => x.id == uid) with
    | none =>
      have hgc : getCurrentUser users (some uid) = none := by
        simp [getCurrentUser, hfu]
      simp [resolveSlug, hslug, hgc, hfu]
      exact fun x hx => by simpa using List.find?_eq_none.mp hfu x hx
    | some u =>
      cases hact : u.isActive with
      | false =>
        have hgc : getCurrentUser users (some uid) = none := by
          simp [getCurrentUser, hfu, hact]
        simp [resolveSlug, hslug, hgc, hfu]
        exact Or.inr hact
      | true =>
        have hgc : getCurrentUser users (some uid) = some u := by
          simp [getCurrentUser, hfu, hact]
        constructor
        · intro habs
          exfalso
          cases hfr : store.find?
              (fun r => r.slug == jsToLowerCase rawSlug && r.userId == uid) with
          | none =>
            rw [resolveSlug_miss hslug hgc hfr] at habs
            cases habs
          | some r =>
            rw [resolveSlug_hit hslug hgc hfr] at habs
            cases habs
        · intro habs
          rcases habs with h | ⟨uid', huid', h⟩
          · cases h
          · cases Option.some.inj huid'
            rcases h with h | ⟨u', hu', hau'⟩
            · rw [hfu] at h; cases h
            · rw [hfu] at hu'
              cases Option.some.inj hu'
              rw [hact] at hau'
              cases hau'

theorem denied_iff_absent_or_inactive_witness :
    resolveSlug [] [] (some 5) "docs" = .loginRedirect :=
  (denied_iff_absent_or_inactive [] [] (some 5) "docs" (by decide)).mpr
    (Or.inr ⟨5, rfl, Or.inl rfl⟩)

/-- C7: Redirect instruction contents: every successful resolution (active
identity, owned slug found) answers with the normalized target URL, HTTP
status 301 and a cache max-age of 300 seconds. -/
theorem redirect_instruction_contents :
    ∀ store users uid u rawSlug r,
      rawSlug ≠ "login" →
      getCurrentUser users (some uid) = some u →
      store.find? (fun x => x.slug == jsToLowerCase rawSlug && x.userId == uid) = some r →
      resolveSlug store users (some uid) rawSlug
        = .redirect (normalizeUrl r.url) 301 300 := by
  intro store users uid u rawSlug r hslug hu hf
  exact resolveSlug_hit hslug hu hf

theorem redirect_instruction_contents_witness :
    resolveSlug [⟨1, "docs", "wiki.example.com", 7, 0⟩] [⟨7, true⟩] (some 7) "DOCS"
      = .redirect "https://wiki.example.com" 301 300 :=
  (redirect_instruction_contents [⟨1, "docs", "wiki.example.com", 7, 0⟩] [⟨7, true⟩] 7
    ⟨7, true⟩ "DOCS" ⟨1, "docs", "wiki.example.com", 7, 0⟩
    (by decide) rfl rfl).trans (by decide)

theorem find?_id_map (l : List Redirect) (rid : Nat) (r' : Redirect) (hid : r'.id = rid)
    (hex : ∃ x ∈ l, x.id = rid) :
    (l.map (fun o => if o.id == rid then r' else o)).find? (fun x => x.id == rid)
      = some r' := by
  induction l with
  | nil =>
    obtain ⟨x, hx, -⟩ := hex
    cases hx
  | cons a t ih =>
    rw [List.map_cons]
    by_cases ha : a.id = rid
    · rw [if_pos (by simp [ha])]
      exact List.find?_cons_of_pos _ (by simp [hid])
    · rw [if_neg (by simp [ha]), List.find?_cons_of_neg _ (by simp [ha])]
      apply ih
      obtain ⟨x, hx, hxid⟩ := hex
      rcases List.mem_cons.mp hx with rfl | hx
      · exact absurd hxid ha
      · exact ⟨x, hx, hxid⟩

/-- C8: Edit frame effect and conflict atomicity: an edit that keeps the
slug (changes only the destination) rewrites the record in place, with
`createdAt` and `userId` unchanged; and an edit whose new slug collides
with a different record of the same owner fails with the conflict error
and leaves the store exactly as it was. -/
theorem edit_frame_and_conflict_atomicity :
    (∀ store uid rid ns nu store' r,
        store.find? (fun x => x.id == rid && x.userId == uid) = some r →
        normSlug ns = r.slug →
        updateRedirect store uid rid ns nu = .ok store' →
        store'.find? (fun x => x.id == rid) = some { r with url := jsTrim nu } ∧
        ({ r with url := jsTrim nu }).createdAt = r.createdAt ∧
        ({ r with url := jsTrim nu }).userId = r.userId) ∧
    (∀ store uid rid ns nu r o,
        store.find? (fun x => x.id == rid && x.userId == uid) = some r →
        normSlug ns ≠ "" → jsTrim nu ≠ "" →
        o ∈ store → o.id ≠ r.id → o.userId = uid → o.slug = normSlug ns →
        runUpdate store uid rid ns nu = (store, some .conflict)) := by
  constructor
  · intro store uid rid ns nu store' r hfind hns h
    obtain ⟨r₀, hf₀, -, -, -, rfl⟩ := updateRedirect_ok h
    rw [hfind] at hf₀
    cases Option.some.inj hf₀
    have hrid : r.id = rid ∧ r.userId = uid := by
      have hp := List.find?_some hfind
      rw [Bool.and_eq_true, beq_iff_eq, beq_iff_eq] at hp
      exact hp
    refine ⟨?_, rfl, rfl⟩
    have hmap : (fun o : Redirect =>
        if o.id == r.id then { r with slug := normSlug ns, url := jsTrim nu } else o)
        = (fun o : Redirect => if o.id == rid then { r with url := jsTrim nu } else o) := by
      funext o
      rw [hrid.1, hns]
    rw [hmap]
    exact find?_id_map store rid _ hrid.1 ⟨r, List.mem_of_find?_eq_some hfind, hrid.1⟩
  · intro store uid rid ns nu r o hfind hns hnu ho hoid hou hos
    have hru : r.userId = uid := by
      have hp := List.find?_some hfind
      rw [Bool.and_eq_true, beq_iff_eq, beq_iff_eq] at hp
      exact hp.2
    have hupd : updateRedirect store uid rid ns nu = .error .conflict := by
      simp only [updateRedirect, hfind]
      rw [if_neg (by push_neg; exact ⟨hns, hnu⟩), if_pos]
      exact List.any_eq_true.mpr ⟨o, ho, by simp [hoid, hou, hru, hos]⟩
    simp only [runUpdate, hupd]

theorem edit_frame_and_conflict_atomicity_witness :
    runUpdate [⟨1, "go", "a.com", 5, 0⟩, ⟨2, "docs", "b.com", 5, 0⟩] 5 2 "go" "c.com"
      = ([⟨1, "go", "a.com", 5, 0⟩, ⟨2, "docs", "b.com", 5, 0⟩], some .conflict) :=
  edit_frame_and_conflict_atomicity.2
    [⟨1, "go", "a.com", 5, 0⟩, ⟨2, "docs", "b.com", 5, 0⟩] 5 2 "go" "c.com"
    ⟨2, "docs", "b.com", 5, 0⟩ ⟨1, "go", "a.com", 5, 0⟩
    rfl (by decide) (by decide) (by decide) (by decide) (by decide) (by decide)

/-- C9 counterexample: an edit whose target id is not owned (here: an empty
store) fails `NotFound`, not `ValidationError`, even though the submitted
slug is empty after trimming — the ownership-scoped load runs first. -/
theorem failfast_validation_missing_mapping_cex :
    updateRedirect [] 1 7 "" "x.com" = .error .notFound ∧
    StoreError.notFound ≠ StoreError.validation :=
  ⟨rfl, by decide⟩

/-- C9 (amended): for every add, and for every edit whose target mapping
exists under the caller, an empty-after-trim slug or destination fails
with `ValidationError` and the store is left unchanged — no partial
write.  (For an edit of a missing/foreign id, the ownership-scoped load
fails `NotFound` first.) -/
theorem failfast_validation :
    (∀ store uid f n slug url,
        jsTrim slug = "" ∨ jsTrim url = "" →
        runCreate store uid f n slug url = (store, some .validation)) ∧
    (∀ store uid rid ns nu r,
        store.find? (fun x => x.id == rid && x.userId == uid) = some r →
        (jsTrim ns = "" ∨ jsTrim nu = "") →
        runUpdate store uid rid ns nu = (store, some .validation)) := by
  constructor
  · intro store uid f n slug url hv
    have hv' : normSlug slug = "" ∨ jsTrim url = "" := by
      rcases hv with h | h
      · exact Or.inl (normSlug_of_trim_empty slug h)
      · exact Or.inr h
    have hc : createRedirect store uid f n slug url = .error .validation := by
      unfold createRedirect
      rw [if_pos hv']
    simp only [runCreate, hc]
  · intro store uid rid ns nu r hfind hv
    have hv' : normSlug ns = "" ∨ jsTrim nu = "" := by
      rcases hv with h | h
      · exact Or.inl (normSlug_of_trim_empty ns h)
      · exact Or.inr h
    have hu : updateRedirect store uid rid ns nu = .error .validation := by
      simp only [updateRedirect, hfind]
      rw [if_pos hv']
    simp only [runUpdate, hu]

theorem failfast_validation_witness :
    runCreate [] 1 10 0 "   " "x.com" = ([], some .validation) :=
  failfast_validation.1 [] 1 10 0 "   " "x.com" (Or.inl (by decide))

/-- C10: The scheme-prefix check at resolution is case-sensitive and exact:
any stored destination that does not begin with the literal lowercase
`http://` or `https://` — including `HTTP://example.com` and `ftp://host`
— is answered with `https://` prepended to the stored value. -/
theorem scheme_check_exact_case_sensitive :
    (∀ store users uid u rawSlug r,
        rawSlug ≠ "login" →
        getCurrentUser users (some uid) = some u →
        store.find? (fun x => x.slug == jsToLowerCase rawSlug && x.userId == uid) = some r →
        jsStartsWith r.url "http://" = false →
        jsStartsWith r.url "https://" = false →
        resolveSlug store users (some uid) rawSlug
          = .redirect ("https://" ++ r.url) 301 300) ∧
    normalizeUrl "HTTP://example.com" = "https://HTTP://example.com" ∧
    normalizeUrl "ftp://host" = "https://ftp://host" := by
  refine ⟨?_, by decide, by decide⟩
  intro store users uid u rawSlug r hslug hu hf h1 h2
  rw [resolveSlug_hit hslug hu hf]
  unfold normalizeUrl
  rw [if_pos (by rw [h1, h2]; rfl)]

theorem scheme_check_exact_case_sensitive_witness :
    resolveSlug [⟨1, "go", "HTTP://example.com", 1, 0⟩] [⟨1, true⟩] (some 1) "go"
      = .redirect ("https://" ++ "HTTP://example.com") 301 300 :=
  scheme_check_exact_case_sensitive.1 [⟨1, "go", "HTTP://example.com", 1, 0⟩] [⟨1, true⟩]
    1 ⟨1, true⟩ "go" ⟨1, "go", "HTTP://example.com", 1, 0⟩
    (by decide) rfl rfl (by decide) (by decide)
